import Mathlib

set_option maxRecDepth 40000

/-!
Verification development for the KScriptRust bytecode compiler, virtual
machine and garbage collector.  The Rust sources are shallowly embedded:

* `f64` is modelled as `ℚ` (the claims under study depend on totality of
  the arithmetic, not on IEEE-754 rounding);
* `usize` is modelled as `Nat`; where the Rust code can underflow a
  subtraction we either model the release-profile two's-complement wrap
  explicitly (`usize_sub`) or return `StepResult.abort`;
* Rust strings are byte lists (`Str`); the hash used for interning
  (`utils.rs::hash_string`, built on `std`'s `DefaultHasher`, whose
  algorithm is deliberately unspecified) is passed around as an explicit
  function parameter;
* a Rust panic (out-of-bounds index, failed `unwrap`, `todo` macro) is
  `StepResult.abort`; the VM run loop returning `RunResult::RuntimeError`
  is `StepResult.err`; normal continuation is `StepResult.ok`.

Hash maps (`strings`, `globals`, class `methods`, instance `fields`) are
modelled as association lists queried with `List.lookup`; only membership
and lookup are relevant to the claims.  The `bytes_allocated` byte
accounting of `heap.rs` (driven by `mem::size_of_val`) has no observable
counterpart in the claims and is carried but not updated by the sweep
embedding.
-/

/-- Rust `String` contents, as a list of bytes. -/
abbrev Str := List Nat

/-- The object handle enum of `object.rs`.  The snapshot's `object.rs` has no
bound-method variant even though `vm.rs` constructs `Object::BoundMethodIndex`;
the variant is therefore included here, modelled from the spec's `ObjectRef`
list (`{..., BoundMethodId}`). -/
inductive Object where
  | stringHash (h : Nat)
  | functionIndex (i : Nat)
  | nativeFnIndex (i : Nat)
  | closureIndex (i : Nat)
  | classIndex (i : Nat)
  | instanceIndex (i : Nat)
  | boundMethodIndex (i : Nat)
deriving DecidableEq, Repr

/-- The tagged value union of `value.rs` (`f64` modelled as `ℚ`). -/
inductive Value where
  | number (q : ℚ)
  | bool (b : Bool)
  | obj (o : Object)
  | nil
deriving DecidableEq, Repr

/-- Source `PartialEq for Object`: `NativeFnIndex` (and the absent
bound-method variant) fall through to the `false` arm. -/
def objectEq : Object → Object → Bool
  | .stringHash a, .stringHash b => a == b
  | .functionIndex a, .functionIndex b => a == b
  | .closureIndex a, .closureIndex b => a == b
  | .classIndex a, .classIndex b => a == b
  | .instanceIndex a, .instanceIndex b => a == b
  | _, _ => false

/-- Source `PartialEq for Value`. -/
def valueEq : Value → Value → Bool
  | .number a, .number b => a == b
  | .bool a, .bool b => a == b
  | .nil, .nil => true
  | .obj a, .obj b => objectEq a b
  | _, _ => false

/-- Value::is_number. -/
def Value.is_number : Value → Bool
  | .number _ => true
  | _ => false

/-- Value::is_boolean. -/
def Value.is_boolean : Value → Bool
  | .bool _ => true
  | _ => false

/-- Value::is_string_hash. -/
def Value.is_string_hash : Value → Bool
  | .obj (.stringHash _) => true
  | _ => false

/-- Value::is_closure_index. -/
def Value.is_closure_index : Value → Bool
  | .obj (.closureIndex _) => true
  | _ => false

/-- Value::is_function_index. -/
def Value.is_function_index : Value → Bool
  | .obj (.functionIndex _) => true
  | _ => false

/-- Value::as_string_hash, partial (panics on other variants). -/
def Value.as_string_hash : Value → Option Nat
  | .obj (.stringHash h) => some h
  | _ => none

/-- Value::as_closure_index, partial. -/
def Value.as_closure_index : Value → Option Nat
  | .obj (.closureIndex i) => some i
  | _ => none

/-- Value::as_function_index, partial. -/
def Value.as_function_index : Value → Option Nat
  | .obj (.functionIndex i) => some i
  | _ => none

/-- Value::as_instance_index, partial. -/
def Value.as_instance_index : Value → Option Nat
  | .obj (.instanceIndex i) => some i
  | _ => none

/-- Release-profile wrapping `usize` subtraction (for `a, b < 2^64` this is
`a - b` on non-underflow and the two's-complement wrap otherwise). -/
def usize_sub (a b : Nat) : Nat :=
  if b ≤ a then a - b else 2 ^ 64 - (b - a)

/-- The opcode set of `chunk.rs` with its `repr(u8)` discriminants 0–28.
The last five variants are used by `compiler.rs`/`vm.rs` but are absent from
the snapshot's `chunk.rs` enum; they are modelled from the spec's opcode
table and given the next free discriminants. -/
inductive Opcode where
  | constant | nilOp | trueOp | falseOp | pop
  | getLocal | getGlobal | defineGlobal | setLocal | setGlobal
  | equal | getUpvalue | setUpvalue | greater | less
  | add | subtract | multiply | divide | notOp | negate | print
  | jumpIfFalse | jump | loop | call | closure | closeValue | ret
  | getProperty | setProperty | classOp | method | invoke
deriving DecidableEq, Repr

/-- Opcode::byte (`repr(u8)` discriminant; 29–33 for the modelled variants). -/
def Opcode.byte : Opcode → Nat
  | .constant => 0 | .nilOp => 1 | .trueOp => 2 | .falseOp => 3 | .pop => 4
  | .getLocal => 5 | .getGlobal => 6 | .defineGlobal => 7 | .setLocal => 8
  | .setGlobal => 9 | .equal => 10 | .getUpvalue => 11 | .setUpvalue => 12
  | .greater => 13 | .less => 14 | .add => 15 | .subtract => 16
  | .multiply => 17 | .divide => 18 | .notOp => 19 | .negate => 20
  | .print => 21 | .jumpIfFalse => 22 | .jump => 23 | .loop => 24
  | .call => 25 | .closure => 26 | .closeValue => 27 | .ret => 28
  | .getProperty => 29 | .setProperty => 30 | .classOp => 31
  | .method => 32 | .invoke => 33

/-- Chunk of `chunk.rs`: bytecode, constant pool, line table. -/
structure Chunk where
  code : List Nat
  constants : List Value
  lines : List Nat
deriving DecidableEq, Repr

/-- Chunk::new. -/
def Chunk.new : Chunk := ⟨[], [], []⟩

/-- Chunk::code — append one bytecode byte and its line. -/
def Chunk.pushCode (c : Chunk) (byte line : Nat) : Chunk :=
  { c with code := c.code ++ [byte % 256], lines := c.lines ++ [line] }

/-- Chunk::add_constants: deduplicate via `PartialEq` scan, else append; the
returned index is the `as u8` truncation of the position (the source marks
this `fixme: might overflow!`). -/
def add_constants (c : Chunk) (v : Value) : Chunk × Nat :=
  match c.constants.findIdx? (fun r => valueEq r v) with
  | some i => (c, i % 256)
  | none => ({ c with constants := c.constants ++ [v] }, c.constants.length % 256)

/-- Function object of `function.rs`. -/
structure Function where
  name : Str
  arity : Nat
  upvalue_count : Nat
  chunk : Chunk
deriving DecidableEq, Repr

/-- The runtime upvalue cell (`closure.rs::ObjUpvalue`).  The cells are
`Rc<RefCell<..>>`-shared in Rust; here they live in a VM-level store and are
referenced by index, with `next` the open-list link that `vm.rs` threads
through them (the snapshot's `closure.rs` lacks the `next` field `vm.rs`
uses; it is modelled from the spec's open-upvalue list). -/
structure UpvalueCell where
  is_null : Bool
  location : Option Nat
  closed : Option Value
  next : Option Nat
deriving DecidableEq, Repr

/-- Closure object of `closure.rs`; `upvalues` holds cell-store indices. -/
structure Closure where
  func_idx : Nat
  upvalues : List Nat
deriving DecidableEq, Repr

/-- Class object of `class.rs`; `methods` maps name-hash to value. -/
structure ClassObj where
  name : Str
  methods : List (Nat × Value)
deriving DecidableEq, Repr

/-- Instance object of `class.rs`; `fields` maps name-hash to value. -/
structure Instance where
  class_idx : Nat
  fields : List (Nat × Value)
deriving DecidableEq, Repr

/-- BoundMethod object of `class.rs`. -/
structure BoundMethod where
  receiver : Value
  closure_idx : Nat
deriving DecidableEq, Repr

/-- CallFrame of `callframe.rs`. -/
structure CallFrame where
  closure_idx : Nat
  ip : Nat
  slot_offset : Nat
deriving DecidableEq, Repr

/-- CallFrame::new (ip starts at 0). -/
def CallFrame.new (closure_idx slot_offset : Nat) : CallFrame :=
  ⟨closure_idx, 0, slot_offset⟩

/-- The managed heap of `heap.rs`.  `strings` is the hash-keyed intern map;
the positional stores are lists indexed by handle.  `bound_methods` backs the
`alloc_bound_method`/`get_bound_method` calls in `vm.rs` (the store is absent
from the snapshot's `heap.rs`; modelled from the spec's heap description).
`native_fns` only tracks the allocation count — natives are external
collaborators. -/
structure Heap where
  bytes_allocated : Nat
  next_gc : Nat
  strings : List (Nat × Str)
  functions : List Function
  closures : List Closure
  classes : List ClassObj
  instances : List Instance
  bound_methods : List BoundMethod
  native_fns : Nat
deriving DecidableEq, Repr

/-- Heap::new (INITIAL_SIZE = 1 MiB). -/
def Heap.new : Heap := ⟨0, 1024 * 1024, [], [], [], [], [], [], 0⟩

/-- Heap::clear (the heap reset performed by `VM::reset_stack`). -/
def Heap.clear (h : Heap) : Heap :=
  { h with strings := [], functions := [], classes := [], closures := [],
           instances := [], bound_methods := [],
           bytes_allocated := 0, next_gc := 1024 * 1024 }

/-- Heap::alloc_string: intern by hash — insert only when the hash is absent,
return the hash either way.  `hash` is the (unspecified) `DefaultHasher`
function of `utils.rs`. -/
def Heap.alloc_string (h : Heap) (hash : Str → Nat) (s : Str) : Heap × Nat :=
  let k := hash s
  if (h.strings.lookup k).isSome then (h, k)
  else ({ h with strings := h.strings ++ [(k, s)] }, k)

/-- Heap::alloc_closure (byte accounting not modelled). -/
def Heap.alloc_closure (h : Heap) (c : Closure) : Heap × Nat :=
  ({ h with closures := h.closures ++ [c] }, h.closures.length)

/-- Heap::alloc_instance. -/
def Heap.alloc_instance (h : Heap) (i : Instance) : Heap × Nat :=
  ({ h with instances := h.instances ++ [i] }, h.instances.length)

/-- Heap::alloc_bound_method (called by `vm.rs`; store modelled from the
spec). -/
def Heap.alloc_bound_method (h : Heap) (b : BoundMethod) : Heap × Nat :=
  ({ h with bound_methods := h.bound_methods ++ [b] }, h.bound_methods.length)

/-- Step outcome of an embedded Rust computation: `ok` continues, `err` is
the run loop returning `RunResult::RuntimeError`, `abort` is a Rust panic
(index out of bounds, failed `unwrap`, the `todo` macro, debug-profile
arithmetic overflow). -/
inductive StepResult (α : Type) where
  | ok (a : α)
  | err (a : α)
  | abort
deriving DecidableEq, Repr

/-- Sequencing of embedded steps: `err` and `abort` cut the computation
short, exactly as `return RunResult::RuntimeError` / a panic do. -/
def StepResult.bind {α : Type} : StepResult α → (α → StepResult α) → StepResult α
  | .ok a, f => f a
  | .err a, _ => .err a
  | .abort, _ => .abort

/-- Heap::is_ready_for_garbage_collection. -/
def Heap.is_ready_for_garbage_collection (h : Heap) : Bool :=
  h.next_gc < h.bytes_allocated

/-- Heap::free_strings — delete every interned string whose hash is not
marked (`is_alive` is the set of marked string hashes). -/
def free_strings (h : Heap) (marked : List Value) : Heap :=
  let is_alive := marked.filterMap Value.as_string_hash
  { h with strings := h.strings.filter (fun kv => is_alive.contains kv.1) }

/-- The deletion scan of Heap::free_closures / free_functions, kept
faithful to the source: the `index` counter is only incremented on the
deletion branch because the alive branch `continue`s past the increment, so
after the first surviving entry the counter no longer tracks the element
position. -/
def free_scan {α : Type} : List Nat → Nat → List α → List Nat
  | alive, index, _ :: rest =>
    if alive.contains index then free_scan alive index rest
    else index :: free_scan alive (index + 1) rest
  | _, _, [] => []

/-- Ascending insertion step (structural stand-in for `Vec::sort`). -/
def insert_sorted (x : Nat) : List Nat → List Nat
  | [] => [x]
  | y :: ys => if x ≤ y then x :: y :: ys else y :: insert_sorted x ys

/-- Ascending insertion sort (structural stand-in for `Vec::sort`). -/
def sort_asc : List Nat → List Nat
  | [] => []
  | x :: xs => insert_sorted x (sort_asc xs)

/-- Remove the scanned indices, largest first (`deletions.sort();
deletions.reverse();` then `Vec::remove`, which shifts every later element
down by one — `List.eraseIdx` has the same shift). -/
def remove_indices {α : Type} (l : List α) (deletions : List Nat) : List α :=
  ((sort_asc deletions).reverse).foldl (fun acc i => acc.eraseIdx i) l

/-- Heap::free_closures (byte accounting not modelled). -/
def free_closures (h : Heap) (marked : List Value) : Heap :=
  let is_alive := marked.filterMap Value.as_closure_index
  { h with closures := remove_indices h.closures (free_scan is_alive 0 h.closures) }

/-- Heap::free_functions. -/
def free_functions (h : Heap) (marked : List Value) : Heap :=
  let is_alive := marked.filterMap Value.as_function_index
  { h with functions := remove_indices h.functions (free_scan is_alive 0 h.functions) }

/-- Heap::free_classes is `todo!()` in the source: it panics unconditionally. -/
def free_classes (_h : Heap) (_marked : List Value) : StepResult Heap :=
  .abort

/-- Heap::free_instances is `todo!()` in the source as well. -/
def free_instances (_h : Heap) (_marked : List Value) : StepResult Heap :=
  .abort

/-- Heap::sweep — free strings, closures, functions, classes, instances in
that order. -/
def Heap.sweep (h : Heap) (marked : List Value) : StepResult Heap :=
  let h1 := free_strings h marked
  let h2 := free_closures h1 marked
  let h3 := free_functions h2 marked
  StepResult.bind (free_classes h3 marked) (fun h4 => free_instances h4 marked)

/-- Heap::run_gc — sweep, then raise the next-GC threshold (the logging is
not modelled). -/
def Heap.run_gc (h : Heap) (marked : List Value) : StepResult Heap :=
  StepResult.bind (h.sweep marked) (fun h1 =>
    .ok { h1 with next_gc := max (h1.bytes_allocated * 2) (1024 * 1024) })

/-- Compiler emission state: the current function's `chunk.code` plus the
sticky `had_error` flag (`Parser::error` only sets the flag; panic-mode
bookkeeping and messages are not modelled).  Lines are irrelevant to the
jump claims and carried by the chunk embedding only. -/
structure EmitState where
  code : List Nat
  had_error : Bool
deriving DecidableEq, Repr

/-- Parser::emit_byte. -/
def emit_byte (p : EmitState) (b : Nat) : EmitState :=
  { p with code := p.code ++ [b % 256] }

/-- Parser::emit_bytes. -/
def emit_bytes (p : EmitState) (b1 b2 : Nat) : EmitState :=
  emit_byte (emit_byte p b1) b2

/-- Parser::emit_jump: emit the opcode and two `0xff` placeholder bytes and
return the patch offset — truncated by the source's `as u8` cast. -/
def emit_jump (p : EmitState) (instruction : Nat) : EmitState × Nat :=
  let p1 := emit_byte (emit_byte (emit_byte p instruction) 0xff) 0xff
  (p1, (p1.code.length - 2) % 256)

/-- Parser::patch_jump: the distance is cast `as u16` before the `>= 65535`
check; the two operand bytes are then written at `offset`, `offset + 1`
(Rust indexing panics when out of range). -/
def patch_jump (p : EmitState) (offset : Nat) : StepResult EmitState :=
  let jump := usize_sub p.code.length (offset + 2) % 65536
  let p1 := if 65535 ≤ jump then { p with had_error := true } else p
  if offset + 1 < p1.code.length then
    .ok { p1 with code := (p1.code.set offset (jump / 256 % 256)).set (offset + 1) (jump % 256) }
  else .abort

/-- Parser::emit_loop: backward jump of magnitude `code.len() - loop_start + 2`
measured after the Loop opcode byte is emitted. -/
def emit_loop (p : EmitState) (loop_start : Nat) : EmitState :=
  let p1 := emit_byte p (Opcode.byte .loop)
  let offset := usize_sub p1.code.length loop_start + 2
  let p2 := if 65536 ≤ offset then { p1 with had_error := true } else p1
  emit_byte (emit_byte p2 (offset / 256 % 256)) (offset % 256)

/-- Parser::make_constant: `add_constants` then report "Too many constants in
one chunk" when the (already truncated) index is at least 255.  Returns
(index, new chunk, error?). -/
def make_constant (c : Chunk) (v : Value) : Nat × Chunk × Bool :=
  let r := add_constants c v
  (r.2, r.1, decide (255 ≤ r.2))

/-- Parser::dot, reduced to its emission behaviour: `name` is the method-name
constant index already produced by `identifier_constant`, `eq_next` /
`lparen_next` tell which token followed the name, `expr_bytes` / `arg_bytes`
stand for the bytes emitted by the recursive `expression()` /
`argument_list()` calls, and `arg_count` is `argument_list`'s result.  The
emitted operand bytes keep the source's `u8` typing via `% 256`. -/
def dot_emit (can_assign eq_next lparen_next : Bool) (name arg_count : Nat)
    (expr_bytes arg_bytes : List Nat) : List Nat :=
  if can_assign && eq_next then
    expr_bytes ++ [Opcode.byte .setProperty, name % 256]
  else if lparen_next then
    arg_bytes ++ [Opcode.byte .invoke, name % 256, arg_count % 256]
  else
    [Opcode.byte .getProperty, name % 256]

/-- The virtual machine state of `vm.rs`.  `stack` is the fixed `Vec` of 256
slots with `stack_top` the live watermark; `cells` is the store backing the
`Rc<RefCell<ObjUpvalue>>` graph, with `open_upvalues` the head index of the
open-upvalue list. -/
structure VM where
  ip : Nat
  stack : List Value
  stack_top : Nat
  callstack : List CallFrame
  globals : List (Nat × Value)
  heap : Heap
  curr_func_idx : Nat
  open_upvalues : Option Nat
  cells : List UpvalueCell
  init_string_hash : Nat
deriving DecidableEq, Repr

/-- VM::push — `self.stack[self.stack_top] = value` panics once the
watermark reaches the vector's length (no capacity check in the source). -/
def VM.push (vm : VM) (v : Value) : StepResult VM :=
  if vm.stack_top < vm.stack.length then
    .ok { vm with stack := vm.stack.set vm.stack_top v, stack_top := vm.stack_top + 1 }
  else .abort

/-- VM::pop (underflow or a short vector panics). -/
def VM.pop (vm : VM) : Option (Value × VM) :=
  if 1 ≤ vm.stack_top then
    match vm.stack.get? (vm.stack_top - 1) with
    | some v => some (v, { vm with stack_top := vm.stack_top - 1 })
    | none => none
  else none

/-- VM::fpop — drop the top without reading it. -/
def VM.fpop (vm : VM) : Option VM :=
  if 1 ≤ vm.stack_top then some { vm with stack_top := vm.stack_top - 1 } else none

/-- VM::peek. -/
def VM.peek (vm : VM) (pos : Nat) : Option Value :=
  if pos + 1 ≤ vm.stack_top then vm.stack.get? (vm.stack_top - 1 - pos) else none

/-- VM::reset_stack — clears the value stack, call stack, open upvalues and
the whole heap; globals survive. -/
def VM.reset_stack (vm : VM) : VM :=
  { vm with stack := [], stack_top := 0, ip := 0, open_upvalues := none,
            curr_func_idx := 0, callstack := [], heap := vm.heap.clear }

/-- VM::runtime_error — print the banner (not modelled) and reset. -/
def runtime_error (vm : VM) : VM := vm.reset_stack

/-- VM::read_constant, factored over an explicit operand byte: the constant
pool of the cached current function. -/
def VM.constant_at (vm : VM) (idx : Nat) : Option Value :=
  (vm.heap.functions.get? vm.curr_func_idx).bind (fun f => f.chunk.constants.get? idx)

/-- VM::bin_ops — pop both operands, require two Numbers, push the result of
`apply`; anything else is a runtime error. -/
def bin_ops (apply : ℚ → ℚ → ℚ) (vm : VM) : StepResult VM :=
  match vm.pop with
  | none => .abort
  | some (b, vm1) =>
    match vm1.pop with
    | none => .abort
    | some (a, vm2) =>
      match a, b with
      | .number x, .number y => vm2.push (.number (apply x y))
      | _, _ => .err (runtime_error vm2)

/-- The `Opcode::Divide` arm: `bin_ops(|a, b| a / b)` — no divisor check. -/
def run_divide (vm : VM) : StepResult VM :=
  bin_ops (fun a b => a / b) vm

/-- The `Opcode::Add` arm.  Both operands are peeked first; two Numbers add,
two strings concatenate left-then-right into a freshly interned string (the
source's `str_b` is the left operand's content and `str_a` the right's),
anything else is a runtime error.  `hash` is the interning hash function. -/
def run_add (hash : Str → Nat) (vm : VM) : StepResult VM :=
  match vm.peek 0, vm.peek 1 with
  | some b, some a =>
    match a, b with
    | .number x, .number y =>
      if 2 ≤ vm.stack_top then
        VM.push { vm with stack_top := vm.stack_top - 2 } (.number (x + y))
      else .abort
    | _, _ =>
      if a.is_string_hash && b.is_string_hash then
        match a.as_string_hash, b.as_string_hash with
        | some ha, some hb =>
          match vm.heap.strings.lookup ha, vm.heap.strings.lookup hb with
          | some str_b, some str_a =>
            let merged := str_b ++ str_a
            let r := Heap.alloc_string vm.heap hash merged
            if 2 ≤ vm.stack_top then
              VM.push { vm with heap := r.1, stack_top := vm.stack_top - 2 }
                (.obj (.stringHash r.2))
            else .abort
          | _, _ => .abort
        | _, _ => .abort
      else .err (runtime_error vm)
  | _, _ => .abort

/-- The `Opcode::JumpIfFalse` arm, factored over the decoded two-byte
operand; `ip` has been advanced past the operand by `read_short`.  The
condition is peeked, not popped, and `as_boolean` panics on a non-Bool. -/
def run_jump_if_false (offset : Nat) (vm : VM) : StepResult VM :=
  let vm1 := { vm with ip := vm.ip + 2 }
  match vm1.peek 0 with
  | none => .abort
  | some (.bool b) => .ok (if b then vm1 else { vm1 with ip := vm1.ip + offset })
  | some _ => .abort

/-- VM::close_upvalues — walk the open list while the head's location is at
or above `frame_slot`, copying the stack slot into the cell and unlinking.
The fuel argument bounds the walk by the cell count (the `Rc` graph of a
reachable VM state is acyclic; fuel exhaustion is `abort`). -/
def close_upvalues_fuel : Nat → Nat → VM → StepResult VM
  | 0, _, _ => .abort
  | fuel + 1, frame_slot, vm =>
    match vm.open_upvalues with
    | none => .ok vm
    | some hd =>
      match vm.cells.get? hd with
      | none => .abort
      | some cell =>
        match cell.location with
        | none => .abort
        | some loc =>
          if frame_slot ≤ loc then
            match vm.stack.get? loc with
            | none => .abort
            | some v =>
              close_upvalues_fuel fuel frame_slot
                { vm with
                  cells := vm.cells.set hd { cell with closed := some v, location := none },
                  open_upvalues := cell.next }
          else .ok vm

/-- VM::close_upvalues at its natural fuel. -/
def close_upvalues (vm : VM) (frame_slot : Nat) : StepResult VM :=
  close_upvalues_fuel (vm.cells.length + 1) frame_slot vm

/-- The `Opcode::CloseValue` arm: `self.fpop(); self.close_upvalues(self.stack_top - 1);`
— the pop happens first, so the boundary handed to `close_upvalues` is one
below the slot that was popped.  A `stack_top` of 0 underflows (abort). -/
def run_close_value (vm : VM) : StepResult VM :=
  match vm.fpop with
  | none => .abort
  | some vm1 =>
    if 1 ≤ vm1.stack_top then close_upvalues vm1 (vm1.stack_top - 1)
    else .abort

/-- VM::call — look up the callee's arity; on a mismatch `runtime_error` is
invoked but the source never returns early, so the frame is pushed and
`true` returned regardless (the `slot_offset` subtraction then underflows on
the reset state; release-profile wrap kept via `usize_sub`). -/
def call (vm : VM) (closure_idx arg_count : Nat) : StepResult (VM × Bool) :=
  match vm.heap.closures.get? closure_idx with
  | none => .abort
  | some clo =>
    match vm.heap.functions.get? clo.func_idx with
    | none => .abort
    | some fn =>
      let vm1 := if arg_count ≠ fn.arity then runtime_error vm else vm
      let frame := CallFrame.new closure_idx (usize_sub (usize_sub vm1.stack_top 1) arg_count)
      .ok ({ vm1 with callstack := vm1.callstack ++ [frame] }, true)

/-- VM::bind_method — missing method is a runtime error (after fetching the
name string for the message); otherwise allocate a BoundMethod around the
peeked receiver, pop it and push the bound method. -/
def bind_method (vm : VM) (class_idx name_hash : Nat) : StepResult (VM × Bool) :=
  match vm.heap.classes.get? class_idx with
  | none => .abort
  | some cls =>
    match cls.methods.lookup name_hash with
    | none =>
      match vm.heap.strings.lookup name_hash with
      | none => .abort
      | some _ => .ok (runtime_error vm, false)
    | some m =>
      match m.as_closure_index with
      | none => .abort
      | some ci =>
        match vm.peek 0 with
        | none => .abort
        | some recv =>
          let r := Heap.alloc_bound_method vm.heap ⟨recv, ci⟩
          match VM.pop { vm with heap := r.1 } with
          | none => .abort
          | some (_, vm1) =>
            match vm1.push (.obj (.boundMethodIndex r.2)) with
            | .ok vm2 => .ok (vm2, true)
            | _ => .abort

/-- The `Opcode::GetProperty` arm, factored over the name-constant operand:
field lookup on the peeked instance (panic on a non-instance), falling back
to method binding; a missing property is a runtime error. -/
def run_get_property (name_const : Nat) (vm : VM) : StepResult VM :=
  match vm.peek 0 with
  | none => .abort
  | some target =>
    match target.as_instance_index with
    | none => .abort
    | some instance_idx =>
      match vm.constant_at name_const with
      | none => .abort
      | some cval =>
        match cval.as_string_hash with
        | none => .abort
        | some field_name_hash =>
          match vm.heap.strings.lookup field_name_hash with
          | none => .abort
          | some _field_name =>
            match vm.heap.instances.get? instance_idx with
            | none => .abort
            | some inst =>
              match inst.fields.lookup field_name_hash with
              | some v =>
                match vm.fpop with
                | none => .abort
                | some vm1 => vm1.push v
              | none =>
                match bind_method vm inst.class_idx field_name_hash with
                | .abort => .abort
                | .err _ => .abort
                | .ok (vm1, ok) => if ok then .ok vm1 else .err vm1

/-- VM::call_value — dispatch on the callee's tag.  The four callable tags
are BoundMethod (restore the receiver into the callee slot, then call the
bound closure), Closure, Class (allocate an instance into the callee slot,
then run `init` or require zero args) and NativeFn; everything else is the
"Can only call function and classes." runtime error.  Native functions are
external collaborators (spec §6) whose bodies are not modelled, so that
branch is left as `abort`; no theorem touches it. -/
def call_value (vm : VM) (callee : Value) (arg_count : Nat) : StepResult (VM × Bool) :=
  match callee with
  | .obj (.boundMethodIndex bidx) =>
    match vm.heap.bound_methods.get? bidx with
    | none => .abort
    | some bm =>
      if arg_count + 1 ≤ vm.stack_top ∧ vm.stack_top - arg_count - 1 < vm.stack.length then
        call { vm with stack := vm.stack.set (vm.stack_top - arg_count - 1) bm.receiver }
          bm.closure_idx arg_count
      else .abort
  | .obj (.closureIndex ci) => call vm ci arg_count
  | .obj (.classIndex kidx) =>
    match vm.heap.classes.get? kidx with
    | none => .abort
    | some cls =>
      let r := Heap.alloc_instance vm.heap ⟨kidx, []⟩
      if arg_count + 1 ≤ vm.stack_top ∧ vm.stack_top - arg_count - 1 < vm.stack.length then
        let vm1 := { vm with heap := r.1,
                             stack := vm.stack.set (vm.stack_top - arg_count - 1)
                                        (.obj (.instanceIndex r.2)) }
        match cls.methods.lookup vm.init_string_hash with
        | some init_m =>
          match init_m.as_closure_index with
          | none => .abort
          | some ci => call vm1 ci arg_count
        | none =>
          if arg_count ≠ 0 then .ok (runtime_error vm1, false) else .ok (vm1, true)
      else .abort
  | .obj (.nativeFnIndex _) => .abort
  | _ => .ok (runtime_error vm, false)

/-- The tail of the `Opcode::Call` arm after `call_value` returns: a `false`
outcome makes the run loop return RuntimeError; on success the cached ip and
current function are reloaded from the new top frame. -/
def finish_call (r : StepResult (VM × Bool)) : StepResult VM :=
  match r with
  | .abort => .abort
  | .err _ => .abort
  | .ok (vm2, ok) =>
    if ok then
      match vm2.callstack.getLast? with
      | none => .abort
      | some fr =>
        match vm2.heap.closures.get? fr.closure_idx with
        | none => .abort
        | some clo => .ok { vm2 with ip := fr.ip, curr_func_idx := clo.func_idx }
    else .err vm2

/-- The `Opcode::Call` arm, factored over the decoded argument-count byte:
save the ip into the current frame, dispatch `call_value` on the callee at
`stack[top - argc - 1]`, return RuntimeError on failure, otherwise reload
the cached ip and function from the new top frame. -/
def run_call (arg_count : Nat) (vm : VM) : StepResult VM :=
  match vm.callstack.getLast? with
  | none => .abort
  | some last =>
    let vm1 := { vm with callstack := vm.callstack.dropLast ++ [{ last with ip := vm.ip }] }
    match vm1.peek arg_count with
    | none => .abort
    | some callee => finish_call (call_value vm1 callee arg_count)

/-- Modelled from the spec: the `Opcode::Invoke` arm.  `compiler.rs` emits
`Invoke` but the snapshot's `chunk.rs` enum and the `VM::run` match have no
such variant, so its execution is modelled from the spec's opcode table
("1-byte name const idx, 1-byte arg count — shortcut for `GetProperty +
Call` on methods"): with the receiver already sitting below the arguments,
look the name up in the receiver's fields (a field value replaces the
receiver slot and is dispatched like `Call`) or else in its class's methods
(called directly, the receiver staying in the callee slot as `this`),
keeping the `Call` arm's frame/ip bookkeeping and its undefined-property
runtime error. -/
def run_invoke (name_const arg_count : Nat) (vm : VM) : StepResult VM :=
  match vm.callstack.getLast? with
  | none => .abort
  | some last =>
    let vm1 := { vm with callstack := vm.callstack.dropLast ++ [{ last with ip := vm.ip }] }
    match vm1.constant_at name_const with
    | none => .abort
    | some cval =>
      match cval.as_string_hash with
      | none => .abort
      | some name_hash =>
        match vm1.heap.strings.lookup name_hash with
        | none => .abort
        | some _ =>
          match vm1.peek arg_count with
          | none => .abort
          | some recv =>
            match recv.as_instance_index with
            | none => .abort
            | some ii =>
              match vm1.heap.instances.get? ii with
              | none => .abort
              | some inst =>
                let dispatched : StepResult (VM × Bool) :=
                  match inst.fields.lookup name_hash with
                  | some v =>
                    if arg_count + 1 ≤ vm1.stack_top ∧
                        vm1.stack_top - arg_count - 1 < vm1.stack.length then
                      call_value
                        { vm1 with stack := vm1.stack.set (vm1.stack_top - arg_count - 1) v }
                        v arg_count
                    else .abort
                  | none =>
                    match vm1.heap.classes.get? inst.class_idx with
                    | none => .abort
                    | some cls =>
                      match cls.methods.lookup name_hash with
                      | none => .ok (runtime_error vm1, false)
                      | some m =>
                        match m.as_closure_index with
                        | none => .abort
                        | some ci => call vm1 ci arg_count
                finish_call dispatched

/-- Push a list of already-evaluated argument values left to right (the
stack effect of the compiled argument expressions between `GetProperty` and
`Call`). -/
def push_list (vs : List Value) (vm : VM) : StepResult VM :=
  match vs with
  | [] => .ok vm
  | v :: rest => StepResult.bind (vm.push v) (push_list rest)

/-- The observable part of a VM state: everything except the heap's
bound-method store and byte accounting, and except the saved return ip
inside call frames (the two sides of the Invoke equivalence sit at
different code offsets by construction). -/
structure Obs where
  stack : List Value
  stack_top : Nat
  frames : List (Nat × Nat)
  globals : List (Nat × Value)
  strings : List (Nat × Str)
  functions : List Function
  closures : List Closure
  classes : List ClassObj
  instances : List Instance
  open_upvalues : Option Nat
  cells : List UpvalueCell
  curr_func_idx : Nat
deriving DecidableEq, Repr

/-- Project a VM state to its observables. -/
def VM.obs (vm : VM) : Obs :=
  ⟨vm.stack, vm.stack_top, vm.callstack.map (fun f => (f.closure_idx, f.slot_offset)),
   vm.globals, vm.heap.strings, vm.heap.functions, vm.heap.closures,
   vm.heap.classes, vm.heap.instances, vm.open_upvalues, vm.cells, vm.curr_func_idx⟩

/-- Project a step result to its observables. -/
def obsR : StepResult VM → StepResult Obs
  | .ok v => .ok v.obs
  | .err v => .err v.obs
  | .abort => .abort

/-- Whether a step result is a normal continuation. -/
def StepResult.isOk {α : Type} : StepResult α → Bool
  | .ok _ => true
  | _ => false

/-- Project the `ok` payload of a step result, with a default. -/
def StepResult.getOk {α : Type} (d : α) : StepResult α → α
  | .ok a => a
  | _ => d

/-- Overwrite consecutive stack slots starting at `i` — the cumulative
effect of pushing `vs` one slot at a time. -/
def writeList (s : List Value) (i : Nat) (vs : List Value) : List Value :=
  match vs with
  | [] => s
  | v :: rest => writeList (s.set i v) (i + 1) rest

/-- Sample heap for the closure-sweep demonstration: three closures, of
which only handle 1 is marked. -/
def c1_heap : Heap := { Heap.new with closures := [⟨10, []⟩, ⟨11, []⟩, ⟨12, []⟩] }

/-- The corresponding mark list: the value stack holds closure handle 1. -/
def c1_marked : List Value := [.obj (.closureIndex 1)]

/-- Sample heap for the arity-mismatch call: one function of arity 1
wrapped in closure 0. -/
def c4_heap : Heap :=
  { Heap.new with functions := [⟨[102], 1, 0, Chunk.new⟩], closures := [⟨0, []⟩] }

/-- VM state about to call closure 0 with zero arguments. -/
def c4_vm : VM :=
  ⟨0, [.obj (.closureIndex 0)], 1, [CallFrame.new 0 0], [], c4_heap, 0, none, [], 0⟩

/-- VM whose 256-slot value stack is full. -/
def c5_full_vm : VM :=
  ⟨0, List.replicate 256 .nil, 256, [], [], Heap.new, 0, none, [], 0⟩

/-- Heap with a zero-arity function for the call-stack depth check. -/
def c5_heap : Heap :=
  { Heap.new with functions := [⟨[102], 0, 0, Chunk.new⟩], closures := [⟨0, []⟩] }

/-- VM already holding 256 call frames, about to call closure 0. -/
def c5_deep_vm : VM :=
  ⟨0, [.obj (.closureIndex 0)], 1, List.replicate 256 (CallFrame.new 0 0), [], c5_heap,
   0, none, [], 0⟩

/-- VM about to execute CloseValue: three live slots, open upvalues at
stack slots 2 (the top) and 1 (a lower, still-live local). -/
def c6_vm : VM :=
  ⟨0, [.nil, .number 1, .number 2], 3, [], [], Heap.new, 0, some 0,
   [⟨false, some 2, none, some 1⟩, ⟨false, some 1, none, none⟩], 0⟩

/-- Emitter state whose chunk already holds 256 bytes of code. -/
def c3_p0 : EmitState := ⟨List.replicate 256 0, false⟩

/-- The JumpIfFalse emission on that chunk (placeholder plus truncated
patch offset). -/
def c3_jump : EmitState × Nat := emit_jump c3_p0 (Opcode.byte .jumpIfFalse)

/-- The subsequent patch at the truncated offset. -/
def c3_patched : StepResult EmitState := patch_jump c3_jump.1 c3_jump.2

/-- A constant pool holding `n` pairwise distinct constants. -/
def c8_pool (n : Nat) : Chunk :=
  ⟨[], (List.range n).map (fun i => .obj (.functionIndex i)), []⟩

/-- Toy interning hash for the concatenation witness. -/
def c7_hash : Str → Nat := fun s => s.length + 100

/-- VM with the strings "a" (hash 1) and "bc" (hash 2) on the stack,
left operand below the right. -/
def c7_vm : VM :=
  ⟨0, [.obj (.stringHash 1), .obj (.stringHash 2)], 2, [], [],
   { Heap.new with strings := [(1, [97]), (2, [98, 99])] }, 0, none, [], 0⟩

/-- VM with two numbers on the stack. -/
def c7_num_vm : VM := ⟨0, [.number 2, .number 3], 2, [], [], Heap.new, 0, none, [], 0⟩

/-- VM with a number under a string — the mismatched-operand case. -/
def c7_mix_vm : VM :=
  ⟨0, [.number 2, .obj (.stringHash 1)], 2, [], [],
   { Heap.new with strings := [(1, [97])] }, 0, none, [], 0⟩

/-- VM with a false Bool on top for the conditional-jump witness. -/
def c9_vm : VM := ⟨10, [.bool false], 1, [], [], Heap.new, 0, none, [], 0⟩

/-- VM with a non-Bool (nil) on top for the conditional-jump abort case. -/
def c9_nil_vm : VM := ⟨10, [.nil], 1, [], [], Heap.new, 0, none, [], 0⟩

/-- VM about to divide 1 by 0. -/
def c10_vm : VM := ⟨0, [.number 1, .number 0], 2, [], [], Heap.new, 0, none, [], 0⟩

/-- Method function of arity 1 whose chunk's constant 0 is the method
name (hash 7). -/
def c2_fn : Function := ⟨[109], 1, 0, ⟨[], [.obj (.stringHash 7)], []⟩⟩

/-- Heap for the Invoke equivalence witness: a class with one method
(name hash 7 → closure 0) and one instance of it. -/
def c2_heap : Heap :=
  { Heap.new with strings := [(7, [109])], functions := [c2_fn], closures := [⟨0, []⟩],
                  classes := [⟨[67], [(7, .obj (.closureIndex 0))]⟩],
                  instances := [⟨0, []⟩] }

/-- VM with the instance on top of the stack, about to invoke method 7
with one argument. -/
def c2_vm : VM :=
  ⟨5, [.obj (.instanceIndex 0), .nil], 1, [CallFrame.new 0 0], [], c2_heap, 0, none, [], 0⟩

/-- Setting a slot to the value it already holds is the identity. -/
theorem list_set_of_get? {α : Type} (l : List α) (n : Nat) (v : α)
    (h : l.get? n = some v) : l.set n v = l := by
  induction l generalizing n with
  | nil => simp at h
  | cons x xs ih =>
    cases n with
    | zero => simp at h; simp [List.set, h]
    | succ m =>
      show x :: xs.set m v = x :: xs
      rw [ih m h]

/-- A found index is inside the list. -/
theorem findIdx?_lt_length {α : Type} (l : List α) (p : α → Bool) (i : Nat)
    (h : l.findIdx? p = some i) : i < l.length := by
  induction l generalizing i with
  | nil => simp [List.findIdx?] at h
  | cons x xs ih =>
    rw [List.findIdx?_cons] at h
    by_cases hp : p x
    · simp [hp] at h; simp [← h]
    · simp [hp] at h
      cases h2 : xs.findIdx? p with
      | none => simp [h2] at h
      | some j => simp [h2] at h; have := ih j h2; simp; omega

/-- C1.  The claim: after every GC cycle every root-reachable handle still
resolves, the sweep removes exactly the unmarked entries, and every survivor
keeps its handle.  The code refutes all three parts: (i) `Heap::sweep`
always reaches `free_classes`, which is `todo!()`, so no collection cycle
ever completes — every sweep panics; (ii) `free_closures`' scan only
advances its index counter on the deletion branch (the alive branch
`continue`s past the increment), so on `c1_heap` with closure 1 marked the
unmarked closure 2 is never considered for deletion; and (iii) deletion goes
through `Vec::remove`, which shifts the surviving closures down — the marked
closure that was handle 1 ends up at handle 0, and handle 1 now resolves to
a different object. -/
theorem C1_sweep_panics_and_shifts_handles :
    (∀ (h : Heap) (marked : List Value), h.sweep marked = .abort) ∧
    (free_closures c1_heap c1_marked).closures = [⟨11, []⟩, ⟨12, []⟩] ∧
    (free_closures c1_heap c1_marked).closures.get? 1 = some ⟨12, []⟩ := by
  refine ⟨fun h marked => rfl, by decide, by decide⟩

/-- C3.  The claim: in every successfully compiled chunk, every
Jump/JumpIfFalse/Loop two-byte operand resolves to an in-range offset.  The
code refutes it: `emit_jump` returns the patch offset `as u8`, so on a chunk
already holding 256 bytes the offset for the placeholder at 257 comes back
truncated to 1; `patch_jump` then rewrites bytes 1–2, the real operand stays
`0xff 0xff`, no compile error is raised, and at run time the jump at 256
adds 65535 to ip 259 — far beyond the 259-byte chunk. -/
theorem C3_emit_jump_truncation_leaves_placeholder :
    c3_jump.2 = 1 ∧
    c3_patched.isOk = true ∧
    (c3_patched.getOk ⟨[], true⟩).had_error = false ∧
    (c3_patched.getOk ⟨[], true⟩).code.length = 259 ∧
    (c3_patched.getOk ⟨[], true⟩).code.get? 256 = some (Opcode.byte .jumpIfFalse) ∧
    (c3_patched.getOk ⟨[], true⟩).code.get? 257 = some 255 ∧
    (c3_patched.getOk ⟨[], true⟩).code.get? 258 = some 255 ∧
    (c3_patched.getOk ⟨[], true⟩).code.length <
      257 + 2 + (256 * ((c3_patched.getOk ⟨[], true⟩).code.getD 257 0) +
        (c3_patched.getOk ⟨[], true⟩).code.getD 258 0) := by
  refine ⟨by decide, by decide, by decide, by decide, by decide, by decide, by decide, by decide⟩

/-- C4.  The claim: an arity-mismatched closure call raises a runtime error
and does not proceed — no frame is pushed and the run loop returns
RuntimeError.  The code refutes the second half: `VM::call` invokes
`runtime_error` (which resets the entire VM, heap included) but never
returns early, so it still pushes a CallFrame — its `slot_offset`
subtraction underflowing on the reset stack — and reports success to the
run loop. -/
theorem C4_arity_mismatch_still_pushes_frame :
    call c4_vm 0 0 =
      .ok (⟨0, [], 0, [⟨0, 0, 2 ^ 64 - 1⟩], [], Heap.new, 0, none, [], 0⟩, true) := by
  decide

/-- C5.  The claim: exceeding 256 value-stack slots or 256 call frames is
reported as a runtime error.  The code refutes it: `VM::push` writes
`stack[stack_top]` with no capacity check, so the 257th push is an
out-of-bounds panic (process abort, `abort` here), and `VM::call` pushes a
257th CallFrame without any depth check or error (the `MAX_VALUE_STACK` /
`MAX_CALLSTACK` constants are declared but never used). -/
theorem C5_overflow_is_abort_not_error :
    VM.push c5_full_vm .nil = .abort ∧
    call c5_deep_vm 0 0 =
      .ok ({ c5_deep_vm with callstack := c5_deep_vm.callstack ++ [⟨0, 0, 0⟩] }, true) ∧
    ((call c5_deep_vm 0 0).getOk (c5_deep_vm, false)).1.callstack.length = 257 := by
  refine ⟨by decide, by decide, by decide⟩

/-- C6.  The claim: CloseValue pops the top slot and closes exactly the open
upvalues located at that popped slot, leaving upvalues at lower slots Open.
The code refutes it: the arm runs `fpop()` before `close_upvalues(stack_top - 1)`,
so the boundary is one below the popped slot — on `c6_vm` (top slot 2
popped) the still-live local at slot 1 has its upvalue transitioned to
Closed as well. -/
theorem C6_close_value_also_closes_slot_below :
    run_close_value c6_vm =
      .ok ⟨0, [.nil, .number 1, .number 2], 2, [], [], Heap.new, 0, none,
        [⟨false, none, some (.number 2), some 1⟩, ⟨false, none, some (.number 1), none⟩], 0⟩ ∧
    ((run_close_value c6_vm).getOk c6_vm).cells.get? 1 =
      some ⟨false, none, some (.number 1), none⟩ := by
  refine ⟨by decide, by decide⟩

/-- C8 counterexample.  The claim says the compiler errors whenever adding a
constant would push the pool past the 256 byte-addressable entries; on a
pool that already holds 256 constants, adding a fresh one grows it to 257
entries, the `as u8` index wraps to 0, and `make_constant` reports no
error. -/
theorem C8_no_error_past_256 :
    (make_constant (c8_pool 256) (.obj (.functionIndex 256))).2.2 = false ∧
    (make_constant (c8_pool 256) (.obj (.functionIndex 256))).2.1.constants.length = 257 ∧
    (make_constant (c8_pool 256) (.obj (.functionIndex 256))).1 = 0 := by
  refine ⟨by decide, by decide, by decide⟩

/-- C8 (amended).  Every constant index `make_constant` hands back for
emission is a single byte (< 256).  The error "Too many constants in one
chunk" fires exactly when the truncated index reaches 255: pools of at most
254 entries never error, a fresh constant added to a 255-entry pool errors
(the cap bites one entry before the claim's 256), and on a pool that already
holds 256 entries the index wraps modulo 256 so no error is reported even
though the pool exceeds 256. -/
theorem C8_make_constant_cap :
    (∀ (c : Chunk) (v : Value), (make_constant c v).1 < 256) ∧
    (∀ (c : Chunk) (v : Value), c.constants.length ≤ 254 →
      (make_constant c v).2.2 = false) ∧
    (∀ (c : Chunk) (v : Value), c.constants.findIdx? (fun r => valueEq r v) = none →
      c.constants.length = 255 → (make_constant c v).2.2 = true) ∧
    (∀ (c : Chunk) (v : Value), c.constants.findIdx? (fun r => valueEq r v) = none →
      c.constants.length = 256 → (make_constant c v).2.2 = false) := by
  refine ⟨?_, ?_, ?_, ?_⟩
  · intro c v
    unfold make_constant add_constants
    cases h : c.constants.findIdx? (fun r => valueEq r v) with
    | some i => simpa using Nat.mod_lt i (by omega)
    | none => simpa using Nat.mod_lt c.constants.length (by omega)
  · intro c v hlen
    unfold make_constant add_constants
    cases h : c.constants.findIdx? (fun r => valueEq r v) with
    | some i =>
      have hi := findIdx?_lt_length _ _ _ h
      have : i % 256 = i := Nat.mod_eq_of_lt (by omega)
      simp [this]
      omega
    | none =>
      have : c.constants.length % 256 = c.constants.length := Nat.mod_eq_of_lt (by omega)
      simp [this]
      omega
  · intro c v hfind hlen
    unfold make_constant add_constants
    simp [hfind, hlen]
  · intro c v hfind hlen
    unfold make_constant add_constants
    simp [hfind, hlen]

/-- C8 witness: the amended cap at concrete pools — index always a byte, no
error at 254 entries, the error at a fresh 256th constant, and the wrap at a
fresh 257th. -/
theorem C8_make_constant_cap_witness :
    (make_constant (c8_pool 256) (.obj (.functionIndex 256))).1 < 256 ∧
    (make_constant (c8_pool 254) (.obj (.functionIndex 254))).2.2 = false ∧
    (make_constant (c8_pool 255) (.obj (.functionIndex 255))).2.2 = true ∧
    (make_constant (c8_pool 256) (.obj (.functionIndex 300))).2.2 = false := by
  refine ⟨C8_make_constant_cap.1 _ _,
    C8_make_constant_cap.2.1 _ _ (by decide),
    C8_make_constant_cap.2.2.1 _ _ (by decide) (by decide),
    C8_make_constant_cap.2.2.2 _ _ (by decide) (by decide)⟩

/-- C9.  JumpIfFalse peeks the condition without popping; a Bool condition
adds the decoded offset to ip exactly when it is false, leaving the stack
untouched, while any non-Bool condition aborts execution (the `as_boolean`
panic) rather than being coerced or reported as a runtime error. -/
theorem C9_jump_if_false_requires_bool :
    (∀ (offset : Nat) (vm : VM) (b : Bool),
      vm.stack.get? (vm.stack_top - 1) = some (.bool b) →
      1 ≤ vm.stack_top →
      run_jump_if_false offset vm =
        .ok { vm with ip := vm.ip + 2 + if b then 0 else offset }) ∧
    (∀ (offset : Nat) (vm : VM) (v : Value),
      vm.stack.get? (vm.stack_top - 1) = some v →
      1 ≤ vm.stack_top →
      v.is_boolean = false →
      run_jump_if_false offset vm = .abort) := by
  constructor
  · intro offset vm b hget htop
    unfold run_jump_if_false VM.peek
    simp only [Nat.sub_zero, Nat.zero_add]
    rw [if_pos htop]
    simp only [hget]
    cases b <;> simp
  · intro offset vm v hget htop hbool
    unfold run_jump_if_false VM.peek
    simp only [Nat.sub_zero, Nat.zero_add]
    rw [if_pos htop]
    simp only [hget]
    cases v with
    | bool b => simp [Value.is_boolean] at hbool
    | number q => rfl
    | obj o => rfl
    | nil => rfl

/-- C9 witness: a false Bool on top takes the jump without popping, and a
nil condition aborts. -/
theorem C9_jump_if_false_witness :
    run_jump_if_false 7 c9_vm = .ok { c9_vm with ip := c9_vm.ip + 2 + 7 } ∧
    run_jump_if_false 7 c9_nil_vm = .abort := by
  constructor
  · have h := C9_jump_if_false_requires_bool.1 7 c9_vm false (by decide) (by decide)
    simpa using h
  · exact C9_jump_if_false_requires_bool.2 7 c9_nil_vm .nil (by decide) (by decide) (by decide)

/-- C10.  Divide on two Number operands never raises a runtime error and
always pushes a Number — there is no divisor check, a divisor of 0
included (the quotient is whatever the underlying number type's total
division yields; `f64` is modelled as `ℚ` here, the source's IEEE-754
division being total as well). -/
theorem C10_divide_two_numbers_never_errors :
    ∀ (vm : VM) (x y : ℚ),
      vm.stack.get? (vm.stack_top - 1) = some (.number y) →
      vm.stack.get? (vm.stack_top - 2) = some (.number x) →
      2 ≤ vm.stack_top →
      vm.stack_top ≤ vm.stack.length →
      run_divide vm =
        .ok { vm with stack := vm.stack.set (vm.stack_top - 2) (.number (x / y)),
                      stack_top := vm.stack_top - 1 } := by
  intro vm x y hy hx htop hlen
  unfold run_divide bin_ops VM.pop VM.push
  rw [if_pos (by omega : 1 ≤ vm.stack_top)]
  simp only [hy]
  rw [if_pos (by omega : 1 ≤ vm.stack_top - 1)]
  have e1 : vm.stack_top - 1 - 1 = vm.stack_top - 2 := by omega
  simp only [e1, hx]
  rw [if_pos (by omega : vm.stack_top - 2 < vm.stack.length)]
  have e2 : vm.stack_top - 2 + 1 = vm.stack_top - 1 := by omega
  simp [e2]

/-- C10 witness: dividing 1 by 0 pushes a Number (the model's total
quotient) with no runtime error. -/
theorem C10_divide_by_zero_witness :
    run_divide c10_vm =
      .ok { c10_vm with stack := c10_vm.stack.set 0 (.number ((1 : ℚ) / 0)),
                        stack_top := 1 } := by
  have h := C10_divide_two_numbers_never_errors c10_vm 1 0 (by decide) (by decide)
    (by decide) (by decide)
  simpa using h

/-- C7.  Add on two Numbers pushes their sum; on two strings it pushes a
freshly interned string whose content is the left operand's bytes followed
by the right operand's; any other operand pair is a runtime error.  The
string case is stated for a fresh intern (the concatenation's hash not yet
in the table): interning is keyed on the 32-bit content hash, so a colliding
hash would alias an existing string — exactly the spec's "equal when hashes
match" identification. -/
theorem C7_add_semantics :
    (∀ (hash : Str → Nat) (vm : VM) (x y : ℚ),
      vm.stack.get? (vm.stack_top - 1) = some (.number y) →
      vm.stack.get? (vm.stack_top - 2) = some (.number x) →
      2 ≤ vm.stack_top →
      vm.stack_top ≤ vm.stack.length →
      run_add hash vm =
        .ok { vm with stack := vm.stack.set (vm.stack_top - 2) (.number (x + y)),
                      stack_top := vm.stack_top - 1 }) ∧
    (∀ (hash : Str → Nat) (vm : VM) (ha hb : Nat) (sa sb : Str),
      vm.stack.get? (vm.stack_top - 1) = some (.obj (.stringHash hb)) →
      vm.stack.get? (vm.stack_top - 2) = some (.obj (.stringHash ha)) →
      2 ≤ vm.stack_top →
      vm.stack_top ≤ vm.stack.length →
      vm.heap.strings.lookup ha = some sa →
      vm.heap.strings.lookup hb = some sb →
      vm.heap.strings.lookup (hash (sa ++ sb)) = none →
      run_add hash vm =
        .ok { vm with
              heap := { vm.heap with
                        strings := vm.heap.strings ++ [(hash (sa ++ sb), sa ++ sb)] },
              stack := vm.stack.set (vm.stack_top - 2)
                         (.obj (.stringHash (hash (sa ++ sb)))),
              stack_top := vm.stack_top - 1 }) ∧
    (∀ (hash : Str → Nat) (vm : VM) (a b : Value),
      vm.stack.get? (vm.stack_top - 1) = some b →
      vm.stack.get? (vm.stack_top - 2) = some a →
      2 ≤ vm.stack_top →
      (a.is_number && b.is_number) = false →
      (a.is_string_hash && b.is_string_hash) = false →
      run_add hash vm = .err (runtime_error vm)) := by
  refine ⟨?_, ?_, ?_⟩
  · intro hash vm x y hy hx htop hlen
    unfold run_add VM.peek VM.push
    rw [if_pos (by omega : 0 + 1 ≤ vm.stack_top)]
    rw [if_pos (by omega : 1 + 1 ≤ vm.stack_top)]
    have e1 : vm.stack_top - 1 - 0 = vm.stack_top - 1 := by omega
    have e2 : vm.stack_top - 1 - 1 = vm.stack_top - 2 := by omega
    simp only [e1, e2, hy, hx]
    rw [if_pos htop]
    rw [if_pos (by omega : vm.stack_top - 2 < vm.stack.length)]
    have e3 : vm.stack_top - 2 + 1 = vm.stack_top - 1 := by omega
    simp [e3]
  · intro hash vm ha hb sa sb hbg hag htop hlen hla hlb hfresh
    unfold run_add VM.peek VM.push Heap.alloc_string
    rw [if_pos (by omega : 0 + 1 ≤ vm.stack_top)]
    rw [if_pos (by omega : 1 + 1 ≤ vm.stack_top)]
    have e1 : vm.stack_top - 1 - 0 = vm.stack_top - 1 := by omega
    have e2 : vm.stack_top - 1 - 1 = vm.stack_top - 2 := by omega
    simp only [e1, e2, hbg, hag]
    simp only [Value.is_string_hash, Value.as_string_hash, Bool.and_self, if_true]
    simp only [hla, hlb, hfresh, Option.isSome_none, Bool.false_eq_true, if_false]
    rw [if_pos htop]
    rw [if_pos (by omega : vm.stack_top - 2 < vm.stack.length)]
    have e3 : vm.stack_top - 2 + 1 = vm.stack_top - 1 := by omega
    simp [e3]
  · intro hash vm a b hbg hag htop hnum hstr
    unfold run_add VM.peek
    rw [if_pos (by omega : 0 + 1 ≤ vm.stack_top)]
    rw [if_pos (by omega : 1 + 1 ≤ vm.stack_top)]
    have e1 : vm.stack_top - 1 - 0 = vm.stack_top - 1 := by omega
    have e2 : vm.stack_top - 1 - 1 = vm.stack_top - 2 := by omega
    simp only [e1, e2, hbg, hag]
    cases a <;> cases b <;> simp_all [Value.is_number, Value.is_string_hash]

/-- C7 witness: "a" + "bc" interns "abc" under the toy hash and leaves it
on top; 2 + 3 pushes 5; a number-string pair is a runtime error. -/
theorem C7_add_semantics_witness :
    run_add c7_hash c7_vm =
      .ok { c7_vm with
            heap := { c7_vm.heap with
                      strings := c7_vm.heap.strings ++ [(103, [97, 98, 99])] },
            stack := c7_vm.stack.set 0 (.obj (.stringHash 103)),
            stack_top := 1 } ∧
    run_add c7_hash c7_num_vm =
      .ok { c7_num_vm with stack := c7_num_vm.stack.set 0 (.number (2 + 3)),
                           stack_top := 1 } ∧
    run_add c7_hash c7_mix_vm = .err (runtime_error c7_mix_vm) := by
  refine ⟨?_, ?_, ?_⟩
  · have h := C7_add_semantics.2.1 c7_hash c7_vm 1 2 [97] [98, 99]
      (by decide) (by decide) (by decide) (by decide) (by decide) (by decide) (by decide)
    simpa using h
  · have h := C7_add_semantics.1 c7_hash c7_num_vm 2 3
      (by decide) (by decide) (by decide) (by decide)
    simpa using h
  · exact C7_add_semantics.2.2 c7_hash c7_mix_vm (.number 2) (.obj (.stringHash 1))
      (by decide) (by decide) (by decide) (by decide) (by decide)

/-- Writing a run of slots preserves the stack's length. -/
theorem writeList_length (vs : List Value) (s : List Value) (i : Nat) :
    (writeList s i vs).length = s.length := by
  induction vs generalizing s i with
  | nil => rfl
  | cons v rest ih => rw [writeList, ih, List.length_set]

/-- Slots below the written run are untouched. -/
theorem writeList_get?_lt (vs : List Value) (s : List Value) (i j : Nat) (h : j < i) :
    (writeList s i vs).get? j = s.get? j := by
  induction vs generalizing s i with
  | nil => rfl
  | cons v rest ih =>
    rw [writeList, ih (s.set i v) (i + 1) (by omega)]
    exact List.get?_set_ne v s (by omega)

/-- A write below the run commutes with the run. -/
theorem writeList_set_comm (vs : List Value) (s : List Value) (i j : Nat) (v : Value)
    (h : j < i) : writeList (s.set j v) i vs = (writeList s i vs).set j v := by
  induction vs generalizing s i with
  | nil => rfl
  | cons w rest ih =>
    rw [writeList, writeList, List.set_comm v w s (by omega : j ≠ i),
      ih (s.set i w) (i + 1) (by omega)]

/-- Pushing a list of values onto a stack with room writes them as a run
above the watermark. -/
theorem push_list_ok (vs : List Value) (vm : VM)
    (h : vm.stack_top + vs.length ≤ vm.stack.length) :
    push_list vs vm = .ok { vm with stack := writeList vm.stack vm.stack_top vs,
                                    stack_top := vm.stack_top + vs.length } := by
  induction vs generalizing vm with
  | nil => simp [push_list, writeList]
  | cons v rest ih =>
    rw [push_list]
    unfold VM.push
    rw [if_pos (by simp at h; omega)]
    rw [StepResult.bind]
    rw [ih { vm with stack := vm.stack.set vm.stack_top v, stack_top := vm.stack_top + 1 }
      (by simp [List.length_set]; simp at h; omega)]
    show StepResult.ok _ = StepResult.ok _
    congr 1
    · simp [writeList]
      omega

/-- `call` and the `Call`-arm tail never look at the heap's bound-method
store, so they are observationally insensitive to it. -/
theorem finish_call_ignores_bound_methods (vmA : VM) (bms : List BoundMethod) (ci n : Nat) :
    obsR (finish_call (call { vmA with heap := { vmA.heap with bound_methods := bms } } ci n)) =
      obsR (finish_call (call vmA ci n)) := by
  unfold call
  cases h1 : vmA.heap.closures.get? ci with
  | none => rfl
  | some clo =>
    simp only []
    cases h2 : vmA.heap.functions.get? clo.func_idx with
    | none => simp [h2]
    | some fn =>
      simp only [h2]
      by_cases ha : n = fn.arity
      · simp only [ha, ne_eq, not_true_eq_false, ite_false]
        unfold finish_call
        simp only [List.getLast?_concat, if_true]
        simp only [CallFrame.new, h1]
        rfl
      · simp only [ne_eq, ha, not_false_eq_true, ite_true]
        unfold runtime_error VM.reset_stack Heap.clear
        simp [finish_call, obsR, VM.obs]

/-- The `GetProperty`-then-`Call` execution of a method call, computed down
to the shared `call` tail: the receiver is replaced by a fresh bound method,
the arguments are pushed above it, and `Call` puts the receiver back into
the callee slot before pushing the method's frame. -/
theorem c2_path_get_property_call
    (vm : VM) (name_const : Nat) (args : List Value) (ii ci nh : Nat)
    (inst : Instance) (cls : ClassObj) (s0 : Str) (last : CallFrame)
    (hrecv : vm.stack.get? (vm.stack_top - 1) = some (.obj (.instanceIndex ii)))
    (htop : 1 ≤ vm.stack_top)
    (hroom : vm.stack_top + args.length ≤ vm.stack.length)
    (hconst : vm.constant_at name_const = some (.obj (.stringHash nh)))
    (hstr : vm.heap.strings.lookup nh = some s0)
    (hinst : vm.heap.instances.get? ii = some inst)
    (hfield : inst.fields.lookup nh = none)
    (hcls : vm.heap.classes.get? inst.class_idx = some cls)
    (hmeth : cls.methods.lookup nh = some (.obj (.closureIndex ci)))
    (hlast : vm.callstack.getLast? = some last) :
    StepResult.bind (StepResult.bind (run_get_property name_const vm) (push_list args))
        (run_call args.length) =
      finish_call (call
        { vm with
          heap := { vm.heap with
                    bound_methods := vm.heap.bound_methods ++
                      [⟨.obj (.instanceIndex ii), ci⟩] },
          stack := writeList vm.stack vm.stack_top args,
          stack_top := vm.stack_top + args.length,
          callstack := vm.callstack.dropLast ++ [{ last with ip := vm.ip }] }
        ci args.length) := by
  have g1 : 0 + 1 ≤ vm.stack_top := by omega
  have g3 : vm.stack_top - 1 < vm.stack.length := by omega
  have e1 : vm.stack_top - 1 - 0 = vm.stack_top - 1 := by omega
  have e2 : vm.stack_top - 1 + 1 = vm.stack_top := by omega
  have hGP : run_get_property name_const vm =
      .ok { vm with
            heap := { vm.heap with
                      bound_methods := vm.heap.bound_methods ++
                        [⟨.obj (.instanceIndex ii), ci⟩] },
            stack := vm.stack.set (vm.stack_top - 1)
                       (.obj (.boundMethodIndex vm.heap.bound_methods.length)),
            stack_top := vm.stack_top } := by
    simp only [run_get_property, VM.peek, bind_method, Heap.alloc_bound_method, VM.pop, VM.push,
      e1, g1, htop, g3, ite_true, if_true, e2, hrecv, hconst, hstr, hinst, hfield, hcls, hmeth,
      Value.as_instance_index, Value.as_string_hash, Value.as_closure_index]
  rw [hGP]
  rw [StepResult.bind]
  rw [push_list_ok _ _ (by simp [List.length_set]; omega)]
  rw [StepResult.bind]
  have g4 : args.length + 1 ≤ vm.stack_top + args.length := by omega
  have e4 : vm.stack_top + args.length - 1 - args.length = vm.stack_top - 1 := by omega
  have e5 : vm.stack_top + args.length - args.length - 1 = vm.stack_top - 1 := by omega
  have hw1 : (writeList (vm.stack.set (vm.stack_top - 1)
        (Value.obj (.boundMethodIndex vm.heap.bound_methods.length))) vm.stack_top args).get?
        (vm.stack_top - 1) =
      some (Value.obj (.boundMethodIndex vm.heap.bound_methods.length)) := by
    rw [writeList_get?_lt _ _ _ _ (by omega)]
    exact List.get?_set_eq_of_lt _ g3
  have hbm : (vm.heap.bound_methods ++ [(⟨.obj (.instanceIndex ii), ci⟩ : BoundMethod)]).get?
      vm.heap.bound_methods.length = some ⟨.obj (.instanceIndex ii), ci⟩ :=
    List.get?_concat_length _ _
  have hset : (writeList (vm.stack.set (vm.stack_top - 1)
        (Value.obj (.boundMethodIndex vm.heap.bound_methods.length))) vm.stack_top args).set
        (vm.stack_top - 1) (.obj (.instanceIndex ii)) = writeList vm.stack vm.stack_top args := by
    rw [← writeList_set_comm _ _ _ _ _ (by omega), List.set_set,
      list_set_of_get? _ _ _ hrecv]
  simp only [run_call, VM.peek, hlast, e4, hw1, g4, ite_true, if_true, call_value, hbm,
    writeList_length, List.length_set, e5, g3, and_true, true_and, hset]

/-- The modelled `Invoke` execution of the same method call, computed down
to the same `call` tail: the receiver never leaves the callee slot and no
bound method is allocated. -/
theorem c2_path_invoke
    (vm : VM) (name_const : Nat) (args : List Value) (ii ci nh : Nat)
    (inst : Instance) (cls : ClassObj) (s0 : Str) (last : CallFrame)
    (hrecv : vm.stack.get? (vm.stack_top - 1) = some (.obj (.instanceIndex ii)))
    (htop : 1 ≤ vm.stack_top)
    (hroom : vm.stack_top + args.length ≤ vm.stack.length)
    (hconst : vm.constant_at name_const = some (.obj (.stringHash nh)))
    (hstr : vm.heap.strings.lookup nh = some s0)
    (hinst : vm.heap.instances.get? ii = some inst)
    (hfield : inst.fields.lookup nh = none)
    (hcls : vm.heap.classes.get? inst.class_idx = some cls)
    (hmeth : cls.methods.lookup nh = some (.obj (.closureIndex ci)))
    (hlast : vm.callstack.getLast? = some last) :
    StepResult.bind (push_list args vm) (run_invoke name_const args.length) =
      finish_call (call
        { vm with
          stack := writeList vm.stack vm.stack_top args,
          stack_top := vm.stack_top + args.length,
          callstack := vm.callstack.dropLast ++ [{ last with ip := vm.ip }] }
        ci args.length) := by
  have g4 : args.length + 1 ≤ vm.stack_top + args.length := by omega
  have e4 : vm.stack_top + args.length - 1 - args.length = vm.stack_top - 1 := by omega
  have hconst2 : (vm.heap.functions.get? vm.curr_func_idx).bind
      (fun f => f.chunk.constants.get? name_const) = some (.obj (.stringHash nh)) := hconst
  have hw2 : (writeList vm.stack vm.stack_top args).get? (vm.stack_top - 1) =
      some (.obj (.instanceIndex ii)) := by
    rw [writeList_get?_lt _ _ _ _ (by omega)]
    exact hrecv
  rw [push_list_ok _ _ hroom]
  rw [StepResult.bind]
  simp only [run_invoke, VM.peek, VM.constant_at, hlast, hconst2, hstr, e4, hw2, g4,
    ite_true, if_true, hinst, hfield, hcls, hmeth,
    Value.as_instance_index, Value.as_string_hash, Value.as_closure_index]

/-- C2.  The compiler's `dot` rule emits a method call `a.b(args)` as an
Invoke instruction carrying the one-byte method-name constant index and the
one-byte argument count; and executing the (spec-modelled) Invoke on a
receiver whose class defines the method has the same observable effect —
identical stack, frames, globals and object stores — as executing
GetProperty on the receiver, pushing the arguments, and executing Call.
The two paths differ only in the transient BoundMethod that
GetProperty-then-Call allocates and immediately consumes, which `VM.obs`
does not observe. -/
theorem C2_invoke_matches_get_property_call :
    (∀ (ca : Bool) (name argc : Nat) (eb ab : List Nat),
      dot_emit ca false true name argc eb ab =
        ab ++ [Opcode.byte .invoke, name % 256, argc % 256] ∧
      name % 256 < 256 ∧ argc % 256 < 256) ∧
    (∀ (vm : VM) (name_const : Nat) (args : List Value) (ii ci nh : Nat)
       (inst : Instance) (cls : ClassObj) (s0 : Str),
      vm.stack.get? (vm.stack_top - 1) = some (.obj (.instanceIndex ii)) →
      1 ≤ vm.stack_top →
      vm.stack_top + args.length ≤ vm.stack.length →
      vm.constant_at name_const = some (.obj (.stringHash nh)) →
      vm.heap.strings.lookup nh = some s0 →
      vm.heap.instances.get? ii = some inst →
      inst.fields.lookup nh = none →
      vm.heap.classes.get? inst.class_idx = some cls →
      cls.methods.lookup nh = some (.obj (.closureIndex ci)) →
      vm.callstack ≠ [] →
      obsR (StepResult.bind (push_list args vm) (run_invoke name_const args.length)) =
        obsR (StepResult.bind (StepResult.bind (run_get_property name_const vm)
                (push_list args)) (run_call args.length))) := by
  constructor
  · intro ca name argc eb ab
    refine ⟨by simp [dot_emit], Nat.mod_lt _ (by omega), Nat.mod_lt _ (by omega)⟩
  · intro vm name_const args ii ci nh inst cls s0
      hrecv htop hroom hconst hstr hinst hfield hcls hmeth hcs
    obtain ⟨last, hlast⟩ : ∃ l, vm.callstack.getLast? = some l := by
      cases hl : vm.callstack.getLast? with
      | none => exact absurd (List.getLast?_eq_none_iff.mp hl) hcs
      | some a => exact ⟨a, rfl⟩
    rw [c2_path_invoke vm name_const args ii ci nh inst cls s0 last
      hrecv htop hroom hconst hstr hinst hfield hcls hmeth hlast]
    rw [c2_path_get_property_call vm name_const args ii ci nh inst cls s0 last
      hrecv htop hroom hconst hstr hinst hfield hcls hmeth hlast]
    exact (finish_call_ignores_bound_methods
      { vm with
        stack := writeList vm.stack vm.stack_top args,
        stack_top := vm.stack_top + args.length,
        callstack := vm.callstack.dropLast ++ [{ last with ip := vm.ip }] }
      (vm.heap.bound_methods ++ [⟨.obj (.instanceIndex ii), ci⟩])
      ci args.length).symm

/-- C2 witness: the emission at concrete operands, and the Invoke /
GetProperty-then-Call agreement on a concrete class world (where both
paths succeed). -/
theorem C2_invoke_witness :
    dot_emit false false true 3 1 [] [9] = [9, 33, 3, 1] ∧
    obsR (StepResult.bind (push_list [.number 5] c2_vm) (run_invoke 0 1)) =
      obsR (StepResult.bind (StepResult.bind (run_get_property 0 c2_vm)
              (push_list [.number 5])) (run_call 1)) ∧
    (StepResult.bind (push_list [.number 5] c2_vm) (run_invoke 0 1)).isOk = true := by
  refine ⟨?_, ?_, by decide⟩
  · have h := (C2_invoke_matches_get_property_call.1 false 3 1 [] [9]).1
    simpa using h
  · exact C2_invoke_matches_get_property_call.2 c2_vm 0 [.number 5] 0 0 7
      ⟨0, []⟩ ⟨[67], [(7, .obj (.closureIndex 0))]⟩ [109]
      (by decide) (by decide) (by decide) (by decide) (by decide) (by decide)
      (by decide) (by decide) (by decide) (by decide)
